import Mathlib

/-!
Verification of the ghostty-agent-status terminal supervisor
(scripts/codex_ghostty_title_proxy.py).

Text is embedded as a list of Unicode code points (Nat); raw byte chunks as a
list of byte values (Nat < 256).  Python regular-expression substitutions are
embedded as explicit left-to-right scanners computing the same matches, and the
relay loop body as a step function on an explicit loop state.
-/

namespace GhosttyStatus

/-- Converts a Lean string literal to its list of Unicode code points; used only
to write the source's vocabulary tables readably. -/
def s2c (s : String) : List Nat := s.toList.map Char.toNat

/-- COMMON_APPROVAL_HINTS from the source. -/
def COMMON_APPROVAL_HINTS : List (List Nat) :=
  [r"approval", r"approve", r"confirm"].map s2c

/-- AGENT_APPROVAL_HINTS from the source: per-agent vocabulary keyed by the
command basename; an unknown basename maps to the empty tuple
(dict.get default). -/
def AGENT_APPROVAL_HINTS (base : List Nat) : List (List Nat) :=
  if base = s2c (r"codex") then
    [r"allow codex to", r"apply proposed code changes", r"enable full access",
     r"allow writes under this root", r"yes, continue anyway",
     r"go back without enabling full access", r"acceptforsession"].map s2c
  else if base = s2c (r"claude") ∨ base = s2c (r"claude-code") then
    [r"do you want to proceed", r"yes, and don't ask again",
     r"tell claude what to do", r"bash command", r"edit file", r"write to file",
     r"allow tool", r"permission mode", r"bypass permissions",
     r"allow dangerously skip permissions", r"allow this action",
     r"allow this command", r"trust this directory"].map s2c
  else if base = s2c (r"opencode") then
    [r"permission denied", r"continue anyway", r"security warnings found",
     r"cannot prompt for confirmation"].map s2c
  else []

/-- approval_hints as computed in main: COMMON_APPROVAL_HINTS +
AGENT_APPROVAL_HINTS.get(command_base, ()). -/
def approval_hints (base : List Nat) : List (List Nat) :=
  COMMON_APPROVAL_HINTS ++ AGENT_APPROVAL_HINTS base

/-- INTERACTION_HINTS from the source (the duplicate entry is kept). -/
def INTERACTION_HINTS : List (List Nat) :=
  [r" yes", r" no", r"y/n", r"[y/n]", r"[y/n]", r"allow once", r"allow always",
   r"accept", r"reject", r"deny", r"decline", r"continue", r"confirm"].map s2c

/-- RESPONSE_KEYS from the source: each entry is a one-byte bytes object
(CR, LF, y, Y, n, N, 1, 2, 3, 4). -/
def RESPONSE_KEYS : List (List Nat) :=
  [[13], [10], [121], [89], [110], [78], [49], [50], [51], [52]]

/-- Tests whether a byte is a UTF-8 continuation byte (0x80-0xBF). -/
def utf8Cont (b : Nat) : Bool := 128 ≤ b && b ≤ 191

/-- Whether the first continuation byte is admissible for lead byte b
(the restricted ranges reject overlong forms and surrogates, as Python's strict
UTF-8 codec does). -/
def utf8Cont1Ok (b b2 : Nat) : Bool :=
  if b = 224 then 160 ≤ b2 && b2 ≤ 191
  else if b = 237 then 128 ≤ b2 && b2 ≤ 159
  else if b = 240 then 144 ≤ b2 && b2 ≤ 191
  else if b = 244 then 128 ≤ b2 && b2 ≤ 143
  else utf8Cont b2

/-- One step of bytes.decode(utf-8, errors=ignore) at lead byte b followed by
rest: returns the decoded code point (or none for an ill-formed or truncated
sequence, which the ignore handler skips) and how many bytes of rest were
consumed in addition to b. -/
def utf8Step (b : Nat) (rest : List Nat) : Option Nat × Nat :=
  if b ≤ 127 then (some b, 0)
  else if 194 ≤ b && b ≤ 223 then
    match rest with
    | b2 :: _ =>
      if utf8Cont b2 then (some ((b - 192) * 64 + (b2 - 128)), 1) else (none, 0)
    | [] => (none, 0)
  else if 224 ≤ b && b ≤ 239 then
    match rest with
    | b2 :: b3 :: _ =>
      if utf8Cont1Ok b b2 then
        if utf8Cont b3 then
          (some ((b - 224) * 4096 + (b2 - 128) * 64 + (b3 - 128)), 2)
        else (none, 1)
      else (none, 0)
    | [b2] => if utf8Cont1Ok b b2 then (none, 1) else (none, 0)
    | [] => (none, 0)
  else if 240 ≤ b && b ≤ 244 then
    match rest with
    | b2 :: b3 :: b4 :: _ =>
      if utf8Cont1Ok b b2 then
        if utf8Cont b3 then
          if utf8Cont b4 then
            (some ((b - 240) * 262144 + (b2 - 128) * 4096 + (b3 - 128) * 64 + (b4 - 128)), 3)
          else (none, 2)
        else (none, 1)
      else (none, 0)
    | [b2, b3] =>
      if utf8Cont1Ok b b2 then (if utf8Cont b3 then (none, 2) else (none, 1)) else (none, 0)
    | [b2] => if utf8Cont1Ok b b2 then (none, 1) else (none, 0)
    | [] => (none, 0)
  else (none, 0)

/-- Fuel-driven loop of the permissive decoder; fuel is the chunk length and
every iteration consumes at least the lead byte, so fuel never runs out. -/
def utf8DecodeAux : Nat → List Nat → List Nat
  | 0, _ => []
  | _ + 1, [] => []
  | fuel + 1, b :: rest =>
    match utf8Step b rest with
    | (some cp, k) => cp :: utf8DecodeAux fuel (rest.drop k)
    | (none, k) => utf8DecodeAux fuel (rest.drop k)

/-- Embeds bytes.decode(utf-8, errors=ignore): never raises, skips ill-formed
subsequences. -/
def utf8DecodeIgnore (l : List Nat) : List Nat := utf8DecodeAux l.length l

/-- Embeds str.lower restricted to the ASCII case mapping.  Python's full
Unicode lowering differs only on non-ASCII cased letters, which neither the
vocabulary tables nor any input analysed below contain. -/
def pyLower (c : Nat) : Nat := if 65 ≤ c && c ≤ 90 then c + 32 else c

/-- Generic left-to-right re.sub(pattern, empty) scanner: matchLen gives the
length of the (unique, leftmost-greedy) match starting exactly at the head of
its argument, or none.  Fuel is the initial length; every match has positive
length so fuel never runs out. -/
def reSubAux (matchLen : List Nat → Option Nat) : Nat → List Nat → List Nat
  | 0, l => l
  | _ + 1, [] => []
  | fuel + 1, c :: rest =>
    match matchLen (c :: rest) with
    | some n => reSubAux matchLen fuel ((c :: rest).drop n)
    | none => c :: reSubAux matchLen fuel rest

/-- Index of the start of the last occurrence of the two-element pattern
ESC backslash (0x1b 0x5c) in a list, if any. -/
def lastEscBackslash : List Nat → Option Nat
  | a :: b :: t =>
    match lastEscBackslash (b :: t) with
    | some j => some (j + 1)
    | none => if a = 27 ∧ b = 92 then some 0 else none
  | _ => none

/-- Length of the leftmost-greedy match of OSC_RE (ESC right-bracket, then
greedy non-BEL run, then BEL or ESC backslash) starting at the head: the match
runs to the first BEL if one exists, else to the last ESC backslash. -/
def oscMatchLen (l : List Nat) : Option Nat :=
  match l with
  | 27 :: 93 :: rest =>
    match rest.findIdx? (fun c => c = 7) with
    | some j => some (2 + j + 1)
    | none =>
      match lastEscBackslash rest with
      | some k => some (2 + k + 2)
      | none => none
  | _ => none

/-- Length of the match of CSI_RE (ESC left-bracket, parameter bytes 0x30-0x3f,
intermediate bytes 0x20-0x2f, final byte 0x40-0x7e) starting at the head.  The
three character classes are disjoint, so greedy matching needs no
backtracking. -/
def csiMatchLen (l : List Nat) : Option Nat :=
  match l with
  | 27 :: 91 :: rest =>
    let p1 := rest.takeWhile (fun c => 48 ≤ c && c ≤ 63)
    let r1 := rest.dropWhile (fun c => 48 ≤ c && c ≤ 63)
    let p2 := r1.takeWhile (fun c => 32 ≤ c && c ≤ 47)
    let r2 := r1.dropWhile (fun c => 32 ≤ c && c ≤ 47)
    match r2 with
    | f :: _ => if 64 ≤ f && f ≤ 126 then some (2 + p1.length + p2.length + 1) else none
    | [] => none
  | _ => none

/-- Length of the leftmost-greedy match of OSC_TITLE_RE (ESC right-bracket 2
semicolon, greedy non-BEL run, BEL or ESC backslash) starting at the head. -/
def titleMatchLen (l : List Nat) : Option Nat :=
  match l with
  | 27 :: 93 :: 50 :: 59 :: rest =>
    match rest.findIdx? (fun c => c = 7) with
    | some j => some (4 + j + 1)
    | none =>
      match lastEscBackslash rest with
      | some k => some (4 + k + 2)
      | none => none
  | _ => none

/-- OSC_RE.sub(empty, text). -/
def oscSub (l : List Nat) : List Nat := reSubAux oscMatchLen l.length l

/-- CSI_RE.sub(empty, text). -/
def csiSub (l : List Nat) : List Nat := reSubAux csiMatchLen l.length l

/-- Membership in the CTRL_RE character class [\x00-\x08\x0b-\x1f\x7f]. -/
def isCtrl (c : Nat) : Bool := c ≤ 8 || (11 ≤ c && c ≤ 31) || c = 127

/-- CTRL_RE.sub(single space, text): each maximal run of class characters is
replaced by one space.  The flag records whether the previous character was in
the class (so the run's single space is already emitted). -/
def ctrlSubGo : Bool → List Nat → List Nat
  | _, [] => []
  | prev, c :: rest =>
    if isCtrl c then
      if prev then ctrlSubGo true rest else 32 :: ctrlSubGo true rest
    else c :: ctrlSubGo false rest

/-- CTRL_RE.sub(single space, text). -/
def ctrlSub (l : List Nat) : List Nat := ctrlSubGo false l

/-- Characters Python's str.split treats as whitespace. -/
def isPySpace (c : Nat) : Bool :=
  (9 ≤ c && c ≤ 13) || c = 28 || c = 29 || c = 30 || c = 31 || c = 32 ||
  c = 133 || c = 160 || c = 5760 || (8192 ≤ c && c ≤ 8202) || c = 8232 ||
  c = 8233 || c = 8239 || c = 8287 || c = 12288

/-- Worker for str.split(): accumulates the current token in reverse, splits on
whitespace, drops empty tokens. -/
def splitGo (acc : List Nat) : List Nat → List (List Nat)
  | [] => if acc = [] then [] else [acc.reverse]
  | c :: rest =>
    if isPySpace c then
      if acc = [] then splitGo [] rest else acc.reverse :: splitGo [] rest
    else splitGo (c :: acc) rest

/-- Embeds text.split() with no separator argument. -/
def pySplit (l : List Nat) : List (List Nat) := splitGo [] l

/-- Embeds (single space).join(tokens). -/
def spaceJoin : List (List Nat) → List Nat
  | [] => []
  | [t] => t
  | t :: ts => t ++ 32 :: spaceJoin ts

/-- The normalize function of the source: decode permissively, lower-case,
strip OSC then CSI sequences, collapse control-byte runs to single spaces, then
collapse whitespace runs via split/join. -/
def normalize (chunk : List Nat) : List Nat :=
  spaceJoin (pySplit (ctrlSub (csiSub (oscSub ((utf8DecodeIgnore chunk).map pyLower)))))

/-- The strip_osc_title function of the source: OSC_TITLE_RE.sub(empty, data)
on raw bytes. -/
def strip_osc_title (data : List Nat) : List Nat :=
  reSubAux titleMatchLen data.length data

/-- Whether OSC_TITLE_RE matches anywhere in the chunk, i.e. whether the chunk
contains a set-window-title escape sequence. -/
def hasTitleMatch (data : List Nat) : Bool :=
  (List.range data.length).any (fun i => (titleMatchLen (data.drop i)).isSome)

/-- WTERMSIG on Linux: the low seven bits of the wait status. -/
def wTermSig (s : Nat) : Nat := s % 128

/-- WEXITSTATUS on Linux: bits 8-15 of the wait status. -/
def wExitStatus (s : Nat) : Nat := s % 65536 / 256

/-- os.WIFEXITED: the termination signal field is zero. -/
def wifExited (s : Nat) : Bool := wTermSig s = 0

/-- os.WIFSIGNALED on Linux/glibc: signed-char arithmetic on the low bits makes
this true exactly when the termination signal field is 1..126 (0 is a normal
exit, 127 a stop status). -/
def wifSignaled (s : Nat) : Bool := 1 ≤ wTermSig s && wTermSig s ≤ 126

/-- The exit_code_from_wait_status function of the source. -/
def exit_code_from_wait_status (s : Nat) : Nat :=
  if wifExited s then wExitStatus s
  else if wifSignaled s then 128 + wTermSig s
  else 1

/-- CTRL_RE.sub(empty, arg): removing every character of the control class,
as main does to argv[1]. -/
def ctrlStrip (arg : List Nat) : List Nat := arg.filter (fun c => !isCtrl c)

/-- The project label of main: CTRL_RE.sub(empty, argv[1]) or "/" (the
slash is used when the stripped string is empty, because Python's or takes the
right operand on a falsy left operand). -/
def projectLabel (arg : List Nat) : List Nat :=
  if ctrlStrip arg = [] then s2c (r"/") else ctrlStrip arg

/-- The three classifier states of the source (the state string variable). -/
inductive AgentState
  | working
  | waiting
  | approval
deriving DecidableEq

/-- STATE_LABELS from the source; the dict.get fallback to the waiting entry is
unreachable because the state variable only ever holds the three keys. -/
def STATE_LABELS (st : AgentState) : List Nat :=
  match st with
  | .working => 0x1F7E1 :: s2c (r" working")
  | .waiting => 0x1F7E2 :: s2c (r" done")
  | .approval => 0x1F534 :: s2c (r" approval")

/-- The title text that set_title formats: project - agent - label. -/
def set_title_text (project agent : List Nat) (st : AgentState) : List Nat :=
  project ++ s2c (r" - ") ++ agent ++ s2c (r" - ") ++ STATE_LABELS st

/-- Python string slicing s[-4000:] : the last 4000 characters (the whole
string when it is no longer than 4000). -/
def lastN (n : Nat) (l : List Nat) : List Nat := l.drop (l.length - n)

/-- Python substring containment (pat in s) on code-point lists: pat is a
contiguous subsequence of the second argument (always true for an empty
pat). -/
def occursIn (pat : List Nat) : List Nat → Bool
  | [] => pat.isPrefixOf ([] : List Nat)
  | c :: rest => pat.isPrefixOf (c :: rest) || occursIn pat rest

/-- Whether an approval hint from the set occurs in the window (Python
substring containment). -/
def hasHint (hints : List (List Nat)) (w : List Nat) : Bool :=
  hints.any (fun h => occursIn h w)

/-- Whether an interaction token occurs in the window. -/
def hasToken (w : List Nat) : Bool :=
  INTERACTION_HINTS.any (fun t => occursIn t w)

/-- The needs_approval conjunction of main: at least one approval hint and at
least one interaction token in the same accumulated window. -/
def needsApproval (hints : List (List Nat)) (w : List Nat) : Bool :=
  hasHint hints w && hasToken w

/-- Whether the raw input chunk contains at least one response key
(any(key in incoming for key in RESPONSE_KEYS); every key is one byte). -/
def hasResponseKey (incoming : List Nat) : Bool :=
  RESPONSE_KEYS.any (fun k => occursIn k incoming)

/-- The mutable loop state of main that the claims concern: the classifier
state, the classification window, whether the child has been reaped, and the
translated exit status. -/
structure LoopState where
  state : AgentState
  window : List Nat
  childExited : Bool
  status : Nat
deriving DecidableEq

/-- The inputs one iteration of the while loop reacts to: whether
now - last_output exceeds 1.4 (quiet), the bytes read from the pty master when
it was ready (some empty list models a read of zero bytes / EIO), the bytes
read from stdin when it was watched and ready, and the wait status when
waitpid reaped the child this iteration (256 models the ChildProcessError
branch, which main treats as status 1 shifted left by 8). -/
structure TickInput where
  quiet : Bool
  masterData : Option (List Nat)
  stdinData : Option (List Nat)
  reaped : Option Nat

/-- The idle-timeout check at the top of the loop body: only when the child is
not reaped, the state is not approval and the quiet threshold is exceeded does
the state fall to waiting. -/
def stepIdle (quiet : Bool) (s : LoopState) : LoopState :=
  if s.childExited = false ∧ s.state ≠ .approval ∧ quiet = true then
    if s.state ≠ .waiting then { s with state := .waiting } else s
  else s

/-- The pty-master branch of the loop body.  Nonempty data is normalized and,
when the normalized text is nonempty, appended to the window (truncated to its
last 4000 characters) before the approval predicate is evaluated; empty data
breaks out of the loop only after the child has been reaped.  The Bool result
is the break flag. -/
def stepMaster (hints : List (List Nat)) (md : Option (List Nat)) (s : LoopState) :
    LoopState × Bool :=
  match md with
  | none => (s, false)
  | some data =>
    if data = [] then
      if s.childExited then (s, true) else (s, false)
    else
      let normalized := normalize data
      if normalized = [] then (s, false)
      else
        let w := lastN 4000 (s.window ++ 32 :: normalized)
        let s1 : LoopState := { s with window := w }
        if needsApproval hints w then
          if s1.state ≠ .approval then ({ s1 with state := .approval }, false)
          else (s1, false)
        else
          if s1.state ≠ .approval then
            if s1.state ≠ .working then ({ s1 with state := .working }, false)
            else (s1, false)
          else (s1, false)

/-- The stdin branch of the loop body (watched only while the child is not
reaped).  A nonempty chunk is forwarded and, when the state is approval and the
chunk contains a response key, the state returns to working and the window is
cleared; an empty read breaks out of the loop. -/
def stepStdin (sd : Option (List Nat)) (s : LoopState) : LoopState × Bool :=
  if s.childExited then (s, false)
  else
    match sd with
    | none => (s, false)
    | some incoming =>
      if incoming = [] then (s, true)
      else
        if s.state = .approval ∧ hasResponseKey incoming then
          ({ s with state := .working, window := [] }, false)
        else (s, false)

/-- The non-blocking waitpid at the bottom of the loop body: on reaping, record
the translated status and force the state to waiting. -/
def stepReap (r : Option Nat) (s : LoopState) : LoopState :=
  if s.childExited then s
  else
    match r with
    | none => s
    | some ws =>
      let s1 : LoopState :=
        { s with childExited := true, status := exit_code_from_wait_status ws }
      if s1.state ≠ .waiting then { s1 with state := .waiting } else s1

/-- One full iteration of the while loop, composing the four blocks in source
order; a break skips the remaining blocks and ends the loop. -/
def tick (hints : List (List Nat)) (i : TickInput) (s : LoopState) : LoopState × Bool :=
  let s1 := stepIdle i.quiet s
  match stepMaster hints i.masterData s1 with
  | (s2, true) => (s2, true)
  | (s2, false) =>
    match stepStdin i.stdinData s2 with
    | (s3, true) => (s3, true)
    | (s3, false) => (stepReap i.reaped s3, false)

/-- The loop state at entry into the while loop: state working, empty window,
child running, fallback status 1. -/
def initState : LoopState :=
  { state := .working, window := [], childExited := false, status := 1 }

/-- Whether the head of the list, if any, is not a space. -/
def headNotSpace : List Nat → Bool
  | [] => true
  | c :: _ => c != 32

/-- Whether the last element of the list, if any, is not a space. -/
def lastNotSpace (l : List Nat) : Bool :=
  match l.getLast? with
  | none => true
  | some c => c != 32

/-- Whether the list has no two adjacent spaces. -/
def noAdjSpace : List Nat → Bool
  | c :: d :: rest => !(c == 32 && d == 32) && noAdjSpace (d :: rest)
  | _ => true

/-- No leading space, no trailing space, no repeated spaces. -/
def wellSpaced (l : List Nat) : Bool :=
  headNotSpace l && lastNotSpace l && noAdjSpace l

/-! Shared helper lemmas about the step functions. -/

theorem stepIdle_childExited (q : Bool) (s : LoopState) :
    (stepIdle q s).childExited = s.childExited := by
  unfold stepIdle; split_ifs <;> rfl

theorem stepIdle_window (q : Bool) (s : LoopState) :
    (stepIdle q s).window = s.window := by
  unfold stepIdle; split_ifs <;> rfl

theorem stepIdle_of_exited (q : Bool) (s : LoopState) (h : s.childExited = true) :
    stepIdle q s = s := by
  have hc : ¬(s.childExited = false ∧ s.state ≠ AgentState.approval ∧ q = true) := by
    simp [h]
  unfold stepIdle
  rw [if_neg hc]

theorem stepIdle_of_approval (q : Bool) (s : LoopState) (h : s.state = .approval) :
    stepIdle q s = s := by
  have hc : ¬(s.childExited = false ∧ s.state ≠ AgentState.approval ∧ q = true) := by
    simp [h]
  unfold stepIdle
  rw [if_neg hc]

theorem stepMaster_none (hints : List (List Nat)) (s : LoopState) :
    stepMaster hints none s = (s, false) := rfl

theorem stepMaster_degenerate (hints : List (List Nat)) (data : List Nat) (s : LoopState)
    (h : data = [] ∨ normalize data = []) :
    (stepMaster hints (some data) s).1 = s := by
  by_cases hd : data = []
  · subst hd
    unfold stepMaster
    split_ifs <;> rfl
  · have hn : normalize data = [] := by tauto
    unfold stepMaster
    dsimp only
    rw [if_neg hd, if_pos hn]

theorem stepMaster_update (hints : List (List Nat)) (data : List Nat) (s : LoopState)
    (hd : data ≠ []) (hn : normalize data ≠ []) :
    (stepMaster hints (some data) s).1.window
        = lastN 4000 (s.window ++ 32 :: normalize data) ∧
    (stepMaster hints (some data) s).1.state
        = (if needsApproval hints (lastN 4000 (s.window ++ 32 :: normalize data)) then
             AgentState.approval
           else if s.state = .approval then AgentState.approval else AgentState.working) ∧
    (stepMaster hints (some data) s).1.childExited = s.childExited := by
  unfold stepMaster
  dsimp only
  rw [if_neg hd, if_neg hn]
  split_ifs with h1 h2 h3 h4 h5 <;> simp_all

theorem stepStdin_none (sd : Option (List Nat)) (s : LoopState) (h : sd = none) :
    stepStdin sd s = (s, false) := by
  subst h
  unfold stepStdin
  split_ifs <;> rfl

theorem stepStdin_of_exited (sd : Option (List Nat)) (s : LoopState)
    (h : s.childExited = true) : stepStdin sd s = (s, false) := by
  unfold stepStdin
  rw [if_pos h]

theorem stepReap_none (s : LoopState) : stepReap none s = s := by
  unfold stepReap
  split_ifs <;> rfl

theorem stepReap_of_exited (r : Option Nat) (s : LoopState) (h : s.childExited = true) :
    stepReap r s = s := by
  unfold stepReap
  rw [if_pos h]

theorem stepReap_reaps (ws : Nat) (s : LoopState) (h : s.childExited = false) :
    (stepReap (some ws) s).state = .waiting ∧
    (stepReap (some ws) s).childExited = true ∧
    (stepReap (some ws) s).window = s.window ∧
    (stepReap (some ws) s).status = exit_code_from_wait_status ws := by
  have hc : ¬(s.childExited = true) := by simp [h]
  unfold stepReap
  rw [if_neg hc]
  dsimp only
  split_ifs with hst <;> simp_all

/-! C6: exit-status translation. -/

/-- C6: for every OS wait status, split exhaustively on its low seven bits
(the termination-signal field): a zero field is a normal exit and the
translation returns the exit code stored in bits 8-15; a field of 1..126 is a
signal termination and the translation returns 128 plus the signal number,
regardless of the other bits and in particular of the core-dump bit 0x80
(e.g. status 139 = SIGSEGV with core maps to 139 = 128 + 11); a field of 127
(a stop status) returns the fallback 1.  The three families cover every
status. -/
theorem c6_exit_code_translation (s : Nat) :
    (s % 128 = 0 → exit_code_from_wait_status s = s % 65536 / 256) ∧
    (1 ≤ s % 128 → s % 128 ≤ 126 → exit_code_from_wait_status s = 128 + s % 128) ∧
    (s % 128 = 127 → exit_code_from_wait_status s = 1) ∧
    (s % 128 = 0 ∨ (1 ≤ s % 128 ∧ s % 128 ≤ 126) ∨ s % 128 = 127) := by
  unfold exit_code_from_wait_status wifExited wifSignaled wTermSig wExitStatus
  refine ⟨?_, ?_, ?_, by omega⟩
  · intro h
    rw [if_pos (by simp; omega)]
  · intro h1 h2
    rw [if_neg (by simp; omega), if_pos (by simp; omega)]
  · intro h
    rw [if_neg (by simp; omega), if_neg (by simp; omega)]

/-- Witness for C6: a child exiting with code 3 (wait status 768) yields 3, a
child killed by signal 9 yields 137, a child killed by SIGSEGV with the
core-dump bit set (wait status 139) yields 139 = 128 + 11, and a stop status
(127) yields the fallback 1. -/
theorem c6_exit_code_translation_witness :
    exit_code_from_wait_status 768 = 3 ∧
    exit_code_from_wait_status 9 = 137 ∧
    exit_code_from_wait_status 139 = 139 ∧
    exit_code_from_wait_status 127 = 1 :=
  ⟨((c6_exit_code_translation 768).1 (by decide)).trans (by decide),
   ((c6_exit_code_translation 9).2.1 (by decide) (by decide)).trans (by decide),
   ((c6_exit_code_translation 139).2.1 (by decide) (by decide)).trans (by decide),
   (c6_exit_code_translation 127).2.2.1 (by decide)⟩

/-! C10: the project label. -/

/-- C10 (amended): the project label is argv[1] with every character of
CTRL_RE's class (0x00-0x08, 0x0b-0x1f, 0x7f; tab and newline are not in the
class) removed, falling back to the slash when the stripped label is empty,
and every emitted title starts with that label. -/
theorem c10_project_label (arg agent : List Nat) (st : AgentState) :
    projectLabel arg ≠ [] ∧
    (∀ c ∈ projectLabel arg, isCtrl c = false) ∧
    (ctrlStrip arg = [] → projectLabel arg = [47]) ∧
    (ctrlStrip arg ≠ [] → projectLabel arg = ctrlStrip arg) ∧
    ∃ rest, set_title_text (projectLabel arg) agent st = projectLabel arg ++ rest := by
  refine ⟨?_, ?_, ?_, ?_, ?_⟩
  · unfold projectLabel
    split_ifs with h
    · decide
    · exact h
  · intro c hc
    unfold projectLabel at hc
    split_ifs at hc with h
    · have : c = 47 := by
        have : s2c (r"/") = [47] := rfl
        rw [this] at hc
        simpa using hc
      subst this
      decide
    · have := List.of_mem_filter hc
      simpa using this
  · intro h
    unfold projectLabel
    rw [if_pos h]
    rfl
  · intro h
    unfold projectLabel
    rw [if_neg h]
  · refine ⟨s2c (r" - ") ++ agent ++ s2c (r" - ") ++ STATE_LABELS st, ?_⟩
    unfold set_title_text
    simp [List.append_assoc]

/-- C10 counterexample: an argv[1] consisting only of the control character
newline keeps that newline as the label instead of falling back to the slash,
because CTRL_RE's class omits newline. -/
theorem c10_counterexample :
    projectLabel [10] = [10] ∧ projectLabel [10] ≠ [47] := by
  decide

/-- Witness for C10 at a concrete input: an argument of two control bytes is
stripped to empty and the label falls back to the slash. -/
theorem c10_witness :
    projectLabel [1, 2] = [47] ∧ projectLabel [1, 2] ≠ [] :=
  ⟨(c10_project_label [1, 2] [] .working).2.2.1 (by decide),
   (c10_project_label [1, 2] [] .working).1⟩

/-! C3: the response-key transition. -/

/-- C3: while the state is approval and the child is not reaped, a forwarded
nonempty stdin chunk containing a response key moves the state to working and
clears the window; a chunk containing no response key leaves the state at
approval and the window untouched. -/
theorem c3_response_key_transition (s : LoopState) (inc : List Nat)
    (hex : s.childExited = false) (hst : s.state = .approval) (hne : inc ≠ []) :
    (hasResponseKey inc = true →
      (stepStdin (some inc) s).1.state = .working ∧
        (stepStdin (some inc) s).1.window = []) ∧
    (hasResponseKey inc = false →
      (stepStdin (some inc) s).1.state = .approval ∧
        (stepStdin (some inc) s).1.window = s.window) := by
  have hc : ¬(s.childExited = true) := by simp [hex]
  unfold stepStdin
  rw [if_neg hc]
  dsimp only
  rw [if_neg hne]
  constructor
  · intro hk
    rw [if_pos ⟨hst, hk⟩]
    exact ⟨rfl, rfl⟩
  · intro hk
    rw [if_neg (by simp [hk])]
    exact ⟨hst, rfl⟩

/-- Witness for C3: in approval state with window "a", the byte y moves the
state to working and clears the window, while the byte x leaves both alone. -/
theorem c3_response_key_witness :
    (stepStdin (some [121]) ⟨.approval, [97], false, 1⟩).1.state = .working ∧
    (stepStdin (some [121]) ⟨.approval, [97], false, 1⟩).1.window = [] ∧
    (stepStdin (some [120]) ⟨.approval, [97], false, 1⟩).1.state = .approval ∧
    (stepStdin (some [120]) ⟨.approval, [97], false, 1⟩).1.window = [97] := by
  obtain ⟨h1, h2⟩ :=
    (c3_response_key_transition ⟨.approval, [97], false, 1⟩ [121] rfl rfl (by decide)).1
      (by decide)
  obtain ⟨h3, h4⟩ :=
    (c3_response_key_transition ⟨.approval, [97], false, 1⟩ [120] rfl rfl (by decide)).2
      (by decide)
  exact ⟨h1, h2, h3, h4⟩

/-! C1: the approval predicate is a conjunction. -/

/-- C1: processing an output chunk transitions into approval only when the
updated window contains both an approval hint and an interaction token; from
working, a window with a hint but no token stays working, as does a window
with a token but no hint. -/
theorem c1_approval_needs_hint_and_token (hints : List (List Nat)) (s : LoopState)
    (data : List Nat) :
    ((stepMaster hints (some data) s).1.state = .approval → s.state ≠ .approval →
      hasHint hints (stepMaster hints (some data) s).1.window = true ∧
      hasToken (stepMaster hints (some data) s).1.window = true) ∧
    (s.state = .working →
      hasHint hints (stepMaster hints (some data) s).1.window = true →
      hasToken (stepMaster hints (some data) s).1.window = false →
      (stepMaster hints (some data) s).1.state = .working) ∧
    (s.state = .working →
      hasHint hints (stepMaster hints (some data) s).1.window = false →
      hasToken (stepMaster hints (some data) s).1.window = true →
      (stepMaster hints (some data) s).1.state = .working) := by
  by_cases hdeg : data = [] ∨ normalize data = []
  · have he := stepMaster_degenerate hints data s hdeg
    rw [he]
    refine ⟨fun h1 h2 => absurd h1 h2, fun h1 _ _ => h1, fun h1 _ _ => h1⟩
  · push_neg at hdeg
    obtain ⟨hd, hn⟩ := hdeg
    obtain ⟨hw, hs, -⟩ := stepMaster_update hints data s hd hn
    rw [hw, hs]
    by_cases hna : needsApproval hints (lastN 4000 (s.window ++ 32 :: normalize data)) = true
    · have hsplit := hna
      unfold needsApproval at hsplit
      rw [Bool.and_eq_true] at hsplit
      rw [if_pos hna]
      refine ⟨fun _ _ => hsplit, ?_, ?_⟩
      · intro _ _ htok
        rw [hsplit.2] at htok
        cases htok
      · intro _ hh _
        rw [hsplit.1] at hh
        cases hh
    · rw [if_neg hna]
      refine ⟨?_, ?_, ?_⟩
      · intro happ hne
        split_ifs at happ with hap
        exact absurd hap hne
      · intro hwork _ _
        rw [if_neg (by simp [hwork])]
      · intro hwork _ _
        rw [if_neg (by simp [hwork])]

/-- Witness for C1: from the initial working state running codex, the chunk
"approval" (a hint, no token) keeps working, and the chunk "continue" (a
token, no hint) keeps working. -/
theorem c1_approval_witness :
    (stepMaster (approval_hints (s2c (r"codex"))) (some (s2c (r"approval")))
        initState).1.state = .working ∧
    (stepMaster (approval_hints (s2c (r"codex"))) (some (s2c (r"continue")))
        initState).1.state = .working :=
  ⟨(c1_approval_needs_hint_and_token _ initState _).2.1 rfl (by decide) (by decide),
   (c1_approval_needs_hint_and_token _ initState _).2.2 rfl (by decide) (by decide)⟩

/-! C4: output with no approval signal. -/

/-- C4 (amended): a nonempty output chunk whose normalized text is nonempty,
observed in state waiting when the updated window does not satisfy the
approval predicate, moves the state to working. -/
theorem c4_output_resumes_working (hints : List (List Nat)) (s : LoopState)
    (data : List Nat) (hst : s.state = .waiting) (hd : data ≠ [])
    (hn : normalize data ≠ [])
    (hna : needsApproval hints (lastN 4000 (s.window ++ 32 :: normalize data)) = false) :
    (stepMaster hints (some data) s).1.state = .working := by
  obtain ⟨-, hs, -⟩ := stepMaster_update hints data s hd hn
  rw [hs, if_neg (by simp [hna]), if_neg (by simp [hst])]

/-- C4 counterexample: the nonempty chunk of one escape byte normalizes to the
empty string, so in state waiting with an empty window (which does not satisfy
the approval predicate) the state stays waiting instead of becoming working. -/
theorem c4_counterexample :
    (stepMaster (approval_hints (s2c (r"codex"))) (some [27])
        ⟨.waiting, [], false, 1⟩).1.state = .waiting ∧
    ([27] : List Nat) ≠ [] ∧
    needsApproval (approval_hints (s2c (r"codex"))) [] = false := by
  refine ⟨?_, by decide, by decide⟩
  decide

/-- Witness for C4 at a concrete input: the chunk "hi" in state waiting with
an empty window yields working. -/
theorem c4_output_witness :
    (stepMaster (approval_hints (s2c (r"codex"))) (some (s2c (r"hi")))
        ⟨.waiting, [], false, 1⟩).1.state = .working :=
  c4_output_resumes_working _ _ _ rfl (by decide) (by decide) (by decide)

/-! C2 and C5: idle timeout and child exit. -/

theorem tick_nodata (hints : List (List Nat)) (q : Bool) (r : Option Nat) (s : LoopState) :
    tick hints ⟨q, none, none, r⟩ s = (stepReap r (stepIdle q s), false) := by
  unfold tick
  dsimp only
  rw [stepMaster_none]
  dsimp only
  rw [stepStdin_none _ _ rfl]

/-- C2 (amended): on a loop tick with the quiet threshold exceeded and no
events, a working state whose child has not yet been reaped becomes waiting,
and an approval state is never changed by the idle timeout. -/
theorem c2_idle_timeout (hints : List (List Nat)) (s : LoopState) (q : Bool)
    (hex : s.childExited = false) :
    (s.state = .working →
      (tick hints ⟨true, none, none, none⟩ s).1.state = .waiting) ∧
    (s.state = .approval →
      (tick hints ⟨q, none, none, none⟩ s).1 = s) := by
  constructor
  · intro hw
    rw [tick_nodata]
    have h1 : stepIdle true s = { s with state := .waiting } := by
      unfold stepIdle
      rw [if_pos ⟨hex, by simp [hw], rfl⟩, if_pos (by simp [hw])]
    dsimp only
    rw [h1, stepReap_none]
  · intro ha
    rw [tick_nodata]
    dsimp only
    rw [stepIdle_of_approval q s ha, stepReap_none]

/-- C2 counterexample: after the child is reaped (wait status 768) and the pty
then delivers buffered output "hello", the reachable loop state has state
working with the child exited; on the following quiet tick the idle timeout is
skipped because the child has exited, so the state stays working instead of
becoming waiting. -/
theorem c2_idle_counterexample :
    (tick (approval_hints (s2c (r"codex")))
        ⟨false, some [104, 101, 108, 108, 111], none, none⟩
        (tick (approval_hints (s2c (r"codex"))) ⟨false, none, none, some 768⟩
          initState).1).1.state = .working ∧
    (tick (approval_hints (s2c (r"codex")))
        ⟨false, some [104, 101, 108, 108, 111], none, none⟩
        (tick (approval_hints (s2c (r"codex"))) ⟨false, none, none, some 768⟩
          initState).1).1.childExited = true ∧
    (tick (approval_hints (s2c (r"codex"))) ⟨true, none, none, none⟩
        (tick (approval_hints (s2c (r"codex")))
          ⟨false, some [104, 101, 108, 108, 111], none, none⟩
          (tick (approval_hints (s2c (r"codex"))) ⟨false, none, none, some 768⟩
            initState).1).1).1.state = .working := by
  decide

/-- Witness for C2: a quiet tick takes the initial working state to waiting
and leaves a live approval state entirely unchanged. -/
theorem c2_idle_witness :
    (tick [] ⟨true, none, none, none⟩ initState).1.state = .waiting ∧
    (tick [] ⟨true, none, none, none⟩ ⟨.approval, [], false, 1⟩).1
      = ⟨.approval, [], false, 1⟩ :=
  ⟨(c2_idle_timeout [] initState true rfl).1 rfl,
   (c2_idle_timeout [] ⟨.approval, [], false, 1⟩ true rfl).2 rfl⟩

/-- C5 (amended): the iteration that reaps the child forces the state to
waiting regardless of its prior value, and afterwards every iteration in which
the pty delivers no data leaves the state at waiting. -/
theorem c5_reap_forces_waiting (hints : List (List Nat)) (s : LoopState) (q : Bool)
    (ws : Nat) (hex : s.childExited = false) :
    (tick hints ⟨q, none, none, some ws⟩ s).1.state = .waiting ∧
    (tick hints ⟨q, none, none, some ws⟩ s).1.childExited = true ∧
    (∀ (i : TickInput) (s2 : LoopState), s2.childExited = true → s2.state = .waiting →
      (i.masterData = none ∨ i.masterData = some []) →
      (tick hints i s2).1.state = .waiting) := by
  have hex1 : (stepIdle q s).childExited = false := by
    rw [stepIdle_childExited]; exact hex
  refine ⟨?_, ?_, ?_⟩
  · rw [tick_nodata]
    exact (stepReap_reaps ws (stepIdle q s) hex1).1
  · rw [tick_nodata]
    exact (stepReap_reaps ws (stepIdle q s) hex1).2.1
  · intro i s2 h2 hw hmd
    have hidle : stepIdle i.quiet s2 = s2 := stepIdle_of_exited _ _ h2
    rcases hmd with hmd | hmd
    · unfold tick
      dsimp only
      rw [hidle, hmd, stepMaster_none]
      dsimp only
      rw [stepStdin_of_exited _ _ h2]
      dsimp only
      rw [stepReap_of_exited _ _ h2]
      exact hw
    · unfold tick
      dsimp only
      rw [hidle, hmd]
      have hm : stepMaster hints (some []) s2 = (s2, true) := by
        unfold stepMaster
        dsimp only
        rw [if_pos rfl, if_pos h2]
      rw [hm]
      exact hw

/-- C5 counterexample: after reaping, a later iteration in which the pty
delivers buffered output "hello" moves the state away from waiting, so the
state does not remain waiting in every iteration after the reap. -/
theorem c5_reap_counterexample :
    (tick (approval_hints (s2c (r"codex"))) ⟨false, none, none, some 768⟩
        initState).1.state = .waiting ∧
    (tick (approval_hints (s2c (r"codex"))) ⟨false, none, none, some 768⟩
        initState).1.childExited = true ∧
    (tick (approval_hints (s2c (r"codex")))
        ⟨false, some [104, 101, 108, 108, 111], none, none⟩
        (tick (approval_hints (s2c (r"codex"))) ⟨false, none, none, some 768⟩
          initState).1).1.state ≠ .waiting := by
  decide

/-- Witness for C5: reaping with wait status 768 forces an approval state to
waiting, and an idle tick after the reap keeps the state waiting. -/
theorem c5_reap_witness :
    (tick [] ⟨false, none, none, some 768⟩ ⟨.approval, [97], false, 1⟩).1.state
        = .waiting ∧
    (tick [] ⟨false, none, none, none⟩ ⟨.waiting, [], true, 3⟩).1.state = .waiting :=
  ⟨(c5_reap_forces_waiting [] ⟨.approval, [97], false, 1⟩ false 768 rfl).1,
   (c5_reap_forces_waiting [] initState false 768 rfl).2.2
     ⟨false, none, none, none⟩ ⟨.waiting, [], true, 3⟩ rfl rfl (Or.inl rfl)⟩

/-! C9: the window bound invariant. -/

theorem lastN_length_le (n : Nat) (l : List Nat) : (lastN n l).length ≤ n := by
  unfold lastN
  rw [List.length_drop]
  omega

theorem stepMaster_window_le (hints : List (List Nat)) (md : Option (List Nat))
    (s : LoopState) (h : s.window.length ≤ 4000) :
    (stepMaster hints md s).1.window.length ≤ 4000 := by
  cases md with
  | none => exact h
  | some data =>
    by_cases hdeg : data = [] ∨ normalize data = []
    · rw [stepMaster_degenerate hints data s hdeg]
      exact h
    · push_neg at hdeg
      rw [(stepMaster_update hints data s hdeg.1 hdeg.2).1]
      exact lastN_length_le _ _

theorem stepStdin_window (sd : Option (List Nat)) (s : LoopState) :
    (stepStdin sd s).1.window = s.window ∨ (stepStdin sd s).1.window = [] := by
  unfold stepStdin
  cases sd with
  | none => split_ifs <;> exact Or.inl rfl
  | some inc =>
    dsimp only
    split_ifs <;> first | exact Or.inl rfl | exact Or.inr rfl

theorem stepReap_window (r : Option Nat) (s : LoopState) :
    (stepReap r s).window = s.window := by
  unfold stepReap
  cases r <;> (dsimp only; split_ifs <;> rfl)

/-- C9: one full loop iteration preserves the bound of 4000 characters on the
classification window, and the window update of the output branch keeps only a
suffix of the appended text (the oldest characters are evicted). -/
theorem c9_window_invariant (hints : List (List Nat)) (i : TickInput) (s : LoopState)
    (h : s.window.length ≤ 4000) :
    (tick hints i s).1.window.length ≤ 4000 ∧
    (∀ data, data ≠ [] → normalize data ≠ [] →
      List.IsSuffix ((stepMaster hints (some data) s).1.window)
        (s.window ++ 32 :: normalize data)) := by
  constructor
  · unfold tick
    dsimp only
    have h1 : (stepIdle i.quiet s).window.length ≤ 4000 := by
      rw [stepIdle_window]
      exact h
    cases hm : stepMaster hints i.masterData (stepIdle i.quiet s) with
    | mk s2 b2 =>
      have h2 : s2.window.length ≤ 4000 := by
        have hx := stepMaster_window_le hints i.masterData (stepIdle i.quiet s) h1
        rw [hm] at hx
        exact hx
      cases b2 with
      | true => exact h2
      | false =>
        dsimp only
        cases hs : stepStdin i.stdinData s2 with
        | mk s3 b3 =>
          have h3 : s3.window.length ≤ 4000 := by
            rcases stepStdin_window i.stdinData s2 with hw | hw <;> rw [hs] at hw <;>
              dsimp only at hw <;> rw [hw]
            · exact h2
            · exact Nat.zero_le _
          cases b3 with
          | true => exact h3
          | false =>
            dsimp only
            rw [stepReap_window]
            exact h3
  · intro data hd hn
    rw [(stepMaster_update hints data s hd hn).1]
    exact List.drop_suffix _ _

/-- Witness for C9: one tick with output on the initial (empty, bounded)
window keeps the window within the bound. -/
theorem c9_window_witness :
    (tick (approval_hints (s2c (r"codex"))) ⟨false, some [104], none, none⟩
        initState).1.window.length ≤ 4000 :=
  (c9_window_invariant _ _ initState (by decide)).1

/-! C8: strip_osc_title is the identity on title-free chunks. -/

theorem reSubAux_of_no_match (ml : List Nat → Option Nat) :
    ∀ (fuel : Nat) (l : List Nat), (∀ i, ml (l.drop i) = none) →
      reSubAux ml fuel l = l := by
  intro fuel
  induction fuel with
  | zero =>
    intro l _
    rfl
  | succ n ih =>
    intro l h
    cases l with
    | nil => rfl
    | cons c rest =>
      have h0 : ml (c :: rest) = none := by simpa using h 0
      unfold reSubAux
      rw [h0]
      exact congrArg (c :: ·) (ih rest (fun i => by
        simpa [List.drop_succ_cons] using h (i + 1)))

/-- C8: strip_osc_title is the identity function on every chunk containing no
set-window-title escape sequence (no match of OSC_TITLE_RE at any
position). -/
theorem c8_strip_title_identity (data : List Nat) (h : hasTitleMatch data = false) :
    strip_osc_title data = data := by
  apply reSubAux_of_no_match
  intro i
  by_cases hi : i < data.length
  · unfold hasTitleMatch at h
    rw [List.any_eq_false] at h
    have h2 := h i (List.mem_range.mpr hi)
    cases ho : titleMatchLen (data.drop i) with
    | none => rfl
    | some v =>
      rw [ho] at h2
      simp at h2
  · have hnil : data.drop i = [] := List.drop_eq_nil_of_le (by omega)
    rw [hnil]
    rfl

/-- Witness for C8: the title-free chunk "hello" passes through unchanged. -/
theorem c8_strip_title_witness :
    strip_osc_title [104, 101, 108, 108, 111] = [104, 101, 108, 108, 111] :=
  c8_strip_title_identity _ (by decide)

/-! C7: shape of normalize output. -/

theorem ctrlSubGo_mem (l : List Nat) : ∀ (b : Bool) (c : Nat), c ∈ ctrlSubGo b l →
    c = 32 ∨ isCtrl c = false := by
  induction l with
  | nil =>
    intro b c hc
    cases hc
  | cons d rest ih =>
    intro b c hc
    unfold ctrlSubGo at hc
    by_cases hd : isCtrl d = true
    · rw [if_pos hd] at hc
      by_cases hb : b = true
      · rw [if_pos hb] at hc
        exact ih true c hc
      · rw [if_neg hb] at hc
        rcases List.mem_cons.mp hc with h32 | hmem
        · exact Or.inl h32
        · exact ih true c hmem
    · rw [if_neg hd] at hc
      rcases List.mem_cons.mp hc with hceq | hmem
      · subst hceq
        exact Or.inr (by simpa using hd)
      · exact ih false c hmem

theorem splitGo_tokens : ∀ (l acc : List Nat),
    (∀ c ∈ acc, isPySpace c = false) →
    ∀ t ∈ splitGo acc l, t ≠ [] ∧ ∀ c ∈ t, isPySpace c = false ∧ (c ∈ acc ∨ c ∈ l) := by
  intro l
  induction l with
  | nil =>
    intro acc hacc t ht
    unfold splitGo at ht
    split_ifs at ht with hne
    · cases ht
    · rw [List.mem_singleton] at ht
      subst ht
      refine ⟨by simpa using hne, fun c hc => ?_⟩
      rw [List.mem_reverse] at hc
      exact ⟨hacc c hc, Or.inl hc⟩
  | cons d rest ih =>
    intro acc hacc t ht
    unfold splitGo at ht
    by_cases hd : isPySpace d = true
    · rw [if_pos hd] at ht
      by_cases hae : acc = []
      · rw [if_pos hae] at ht
        obtain ⟨h1, h2⟩ := ih [] (by intro c hc; cases hc) t ht
        refine ⟨h1, fun c hc => ⟨(h2 c hc).1, ?_⟩⟩
        rcases (h2 c hc).2 with h | h
        · cases h
        · exact Or.inr (List.mem_cons_of_mem _ h)
      · rw [if_neg hae] at ht
        rcases List.mem_cons.mp ht with rfl | hmem
        · refine ⟨by simpa using hae, fun c hc => ?_⟩
          rw [List.mem_reverse] at hc
          exact ⟨hacc c hc, Or.inl hc⟩
        · obtain ⟨h1, h2⟩ := ih [] (by intro c hc; cases hc) t hmem
          refine ⟨h1, fun c hc => ⟨(h2 c hc).1, ?_⟩⟩
          rcases (h2 c hc).2 with h | h
          · cases h
          · exact Or.inr (List.mem_cons_of_mem _ h)
    · rw [if_neg hd] at ht
      obtain ⟨h1, h2⟩ := ih (d :: acc) (by
        intro c hc
        rcases List.mem_cons.mp hc with rfl | hmem
        · simpa using hd
        · exact hacc c hmem) t ht
      refine ⟨h1, fun c hc => ⟨(h2 c hc).1, ?_⟩⟩
      rcases (h2 c hc).2 with h | h
      · rcases List.mem_cons.mp h with rfl | hmem
        · exact Or.inr (List.mem_cons_self _ _)
        · exact Or.inl hmem
      · exact Or.inr (List.mem_cons_of_mem _ h)

theorem mem_spaceJoin (ts : List (List Nat)) (c : Nat) (h : c ∈ spaceJoin ts) :
    c = 32 ∨ ∃ t ∈ ts, c ∈ t := by
  induction ts with
  | nil => cases h
  | cons t rest ih =>
    cases rest with
    | nil =>
      rw [show spaceJoin [t] = t from rfl] at h
      exact Or.inr ⟨t, List.mem_cons_self _ _, h⟩
    | cons u us =>
      rw [show spaceJoin (t :: u :: us) = t ++ 32 :: spaceJoin (u :: us) from rfl] at h
      rcases List.mem_append.mp h with h1 | h2
      · exact Or.inr ⟨t, List.mem_cons_self _ _, h1⟩
      · rcases List.mem_cons.mp h2 with rfl | h3
        · exact Or.inl rfl
        · rcases ih h3 with h4 | ⟨t2, ht2, hc2⟩
          · exact Or.inl h4
          · exact Or.inr ⟨t2, List.mem_cons_of_mem _ ht2, hc2⟩

theorem noAdjSpace_cons (x : Nat) (l : List Nat) (hx : ¬(x = 32))
    (hl : noAdjSpace l = true) : noAdjSpace (x :: l) = true := by
  cases l with
  | nil => rfl
  | cons y rest => simp [noAdjSpace, hx, hl]

theorem noAdjSpace_append (t l : List Nat) (ht : ∀ c ∈ t, ¬(c = 32))
    (hl : noAdjSpace l = true) : noAdjSpace (t ++ l) = true := by
  induction t with
  | nil => simpa using hl
  | cons x xs ih =>
    have hx : ¬(x = 32) := ht x (List.mem_cons_self _ _)
    have ih2 := ih (fun c hc => ht c (List.mem_cons_of_mem _ hc))
    exact noAdjSpace_cons x (xs ++ l) hx ih2

theorem headNotSpace_of_all (l : List Nat) (h : ∀ c ∈ l, ¬(c = 32)) :
    headNotSpace l = true := by
  cases l with
  | nil => rfl
  | cons c rest =>
    have := h c (List.mem_cons_self _ _)
    simp [headNotSpace, this]

theorem lastNotSpace_of_all (l : List Nat) (h : ∀ c ∈ l, ¬(c = 32)) :
    lastNotSpace l = true := by
  unfold lastNotSpace
  cases hg : l.getLast? with
  | none => rfl
  | some a =>
    have := h a (List.mem_of_mem_getLast? hg)
    simp [this]

theorem spaceJoin_ne_nil (t : List Nat) (ts : List (List Nat)) (ht : t ≠ []) :
    spaceJoin (t :: ts) ≠ [] := by
  cases ts with
  | nil => simpa using ht
  | cons u us =>
    rw [show spaceJoin (t :: u :: us) = t ++ 32 :: spaceJoin (u :: us) from rfl]
    simp

theorem headNotSpace_spaceJoin (ts : List (List Nat))
    (h : ∀ t ∈ ts, t ≠ [] ∧ ∀ c ∈ t, ¬(c = 32)) :
    headNotSpace (spaceJoin ts) = true := by
  cases ts with
  | nil => rfl
  | cons t rest =>
    obtain ⟨hne, hch⟩ := h t (List.mem_cons_self _ _)
    cases rest with
    | nil => exact headNotSpace_of_all t hch
    | cons u us =>
      rw [show spaceJoin (t :: u :: us) = t ++ 32 :: spaceJoin (u :: us) from rfl]
      cases t with
      | nil => exact absurd rfl hne
      | cons c cs =>
        have := hch c (List.mem_cons_self _ _)
        simp [headNotSpace, this]

theorem wellSpaced_spaceJoin : ∀ ts : List (List Nat),
    (∀ t ∈ ts, t ≠ [] ∧ ∀ c ∈ t, ¬(c = 32)) → wellSpaced (spaceJoin ts) = true := by
  intro ts
  induction ts with
  | nil =>
    intro _
    rfl
  | cons t rest ih =>
    intro h
    obtain ⟨hne, hch⟩ := h t (List.mem_cons_self _ _)
    have hrest : ∀ u ∈ rest, u ≠ [] ∧ ∀ c ∈ u, ¬(c = 32) :=
      fun u hu => h u (List.mem_cons_of_mem _ hu)
    cases rest with
    | nil =>
      have h1 := headNotSpace_of_all t hch
      have h2 := lastNotSpace_of_all t hch
      have h3 : noAdjSpace t = true := by
        have := noAdjSpace_append t [] hch rfl
        simpa using this
      unfold wellSpaced
      rw [show spaceJoin [t] = t from rfl, h1, h2, h3]
      rfl
    | cons u us =>
      have hw := ih hrest
      unfold wellSpaced at hw
      rw [Bool.and_eq_true, Bool.and_eq_true] at hw
      obtain ⟨⟨hwHead, hwLast⟩, hwAdj⟩ := hw
      have hJ : spaceJoin (t :: u :: us) = t ++ 32 :: spaceJoin (u :: us) := rfl
      have hne2 : spaceJoin (u :: us) ≠ [] :=
        spaceJoin_ne_nil u us (hrest u (List.mem_cons_self _ _)).1
      have g1 : headNotSpace (spaceJoin (t :: u :: us)) = true :=
        headNotSpace_spaceJoin (t :: u :: us) h
      have g2 : lastNotSpace (spaceJoin (t :: u :: us)) = true := by
        unfold lastNotSpace
        rw [hJ, List.getLast?_append_of_ne_nil _
            (by simp : (32 :: spaceJoin (u :: us)) ≠ []),
          show (32 :: spaceJoin (u :: us)) = [32] ++ spaceJoin (u :: us) from rfl,
          List.getLast?_append_of_ne_nil _ hne2]
        unfold lastNotSpace at hwLast
        exact hwLast
      have g3 : noAdjSpace (spaceJoin (t :: u :: us)) = true := by
        rw [hJ]
        apply noAdjSpace_append t _ hch
        cases hL : spaceJoin (u :: us) with
        | nil => rfl
        | cons l0 ls =>
          rw [hL] at hwAdj hwHead
          have hl0 : ¬(l0 = 32) := by simpa [headNotSpace] using hwHead
          simp [noAdjSpace, hl0, hwAdj]
      unfold wellSpaced
      rw [g1, g2, g3]
      rfl

/-- C7 (amended): normalize never raises (it is a total function) and its
output consists of space-free tokens separated by single spaces, with no
leading or trailing space, no character of CTRL_RE's control class and no
Python whitespace inside tokens.  Non-ASCII control characters such as U+009B
can remain, so not every character is printable (see the counterexample). -/
theorem c7_normalize_wellformed (chunk : List Nat) :
    (∀ c ∈ normalize chunk, c = 32 ∨ (isPySpace c = false ∧ isCtrl c = false)) ∧
    wellSpaced (normalize chunk) = true := by
  have htok := splitGo_tokens
    (ctrlSub (csiSub (oscSub ((utf8DecodeIgnore chunk).map pyLower)))) []
    (by intro c hc; cases hc)
  constructor
  · intro c hc
    have hc2 : c ∈ spaceJoin (pySplit
        (ctrlSub (csiSub (oscSub ((utf8DecodeIgnore chunk).map pyLower))))) := hc
    rcases mem_spaceJoin _ c hc2 with h32 | ⟨t, ht, hct⟩
    · exact Or.inl h32
    · obtain ⟨-, hprop⟩ := htok t ht
      obtain ⟨hsp, hmem⟩ := hprop c hct
      have hmem2 : c ∈ ctrlSubGo false
          (csiSub (oscSub ((utf8DecodeIgnore chunk).map pyLower))) := by
        rcases hmem with h | h
        · cases h
        · exact h
      rcases ctrlSubGo_mem _ false c hmem2 with h32 | hctr
      · subst h32
        exact absurd hsp (by decide)
      · exact Or.inr ⟨hsp, hctr⟩
  · apply wellSpaced_spaceJoin
    intro t ht
    obtain ⟨hne, hprop⟩ := htok t ht
    refine ⟨hne, fun c hc h32 => ?_⟩
    subst h32
    exact absurd (hprop 32 hc).1 (by decide)

/-- C7 counterexample: the valid two-byte UTF-8 chunk 0xC2 0x9B decodes to the
C1 control character U+009B (the one-byte CSI introducer, not printable) and
passes through normalize untouched, so the output is not made of printable
characters only. -/
theorem c7_normalize_counterexample :
    normalize [194, 155] = [155] ∧ 128 ≤ 155 ∧ 155 ≤ 159 := by
  exact ⟨by decide, by decide, by decide⟩

/-- Witness for C7 at a concrete input: "h(two spaces)i" normalizes to
tokens h and i separated by one space, and the character h is classified by
the theorem. -/
theorem c7_normalize_witness :
    (104 = 32 ∨ (isPySpace 104 = false ∧ isCtrl 104 = false)) ∧
    wellSpaced (normalize [104, 32, 32, 105]) = true :=
  ⟨(c7_normalize_wellformed [104, 32, 32, 105]).1 104 (by decide),
   (c7_normalize_wellformed [104, 32, 32, 105]).2⟩

end GhosttyStatus
